import Mathlib

/-!
Shallow embedding of `scripts/scrape_unisport.py`: the text-to-schedule
pipeline that turns scraped course rows into calendar events.

Modelling conventions:
* Calendar dates are proleptic-Gregorian ordinals (`toOrdinal y m d`,
  day 1 = 0001-01-01), exactly the representation CPython's `date`
  arithmetic uses internally; `date.weekday()` is `(ordinal + 6) % 7`
  (0 = Monday).
* `datetime.time(h, m)` and `datetime.date` construction validate their
  fields and raise `ValueError`; fallible code is embedded in
  `Except String`.
* The anchored regexes `TIME_RE`, `ALLDAY_RE`, `PHASE_RE`,
  `DATE_SINGLE_RE`, `DATE_RANGE_RE` are embedded as deterministic
  matchers over `List Char` (their languages are regular and the
  patterns are simple enough that greedy matching with the one
  backtracking point in `\d{1,2}:` is exact).
* `date.today()` and the module-level `PHASE_LOOKAHEAD_DAYS` are passed
  to `build_events` as explicit parameters `today`/`lookahead`.
* The final `events.sort(key=...)` is a stable sort by the key
  `(ev["start"], ev["title"])`; Python compares the ISO-formatted start
  strings.  On the events this program builds, that string order is
  exactly the order of `startKey` below (same-length date prefixes
  compare like the date ordinal; a date-only string is a proper prefix
  of every datetime string of the same day; times are zero-padded), so
  the stable sort is modelled by `List.insertionSort` on `evLe`.
-/

namespace Unisport

/-- The ASCII characters matched by the regex whitespace class. -/
def isPySpace (c : Char) : Bool :=
  c = ' ' || c = '\t' || c = '\n' || c = '\r' || c = '\x0b' || c = '\x0c'

/-- Collapse every whitespace run to one blank, as `re.sub(r"\s+", " ", s)` does.
The flag records whether the previous character was part of a run. -/
def squeezeWS : Bool → List Char → List Char
  | _, [] => []
  | prevSp, c :: cs =>
    if isPySpace c then
      if prevSp then squeezeWS true cs else ' ' :: squeezeWS true cs
    else c :: squeezeWS false cs

/-- Embeds `normalize_space`: collapse whitespace runs and strip both ends. -/
def normalize_space (s : String) : List Char :=
  (((squeezeWS false s.data).dropWhile isPySpace).reverse.dropWhile isPySpace).reverse

/-- Value of a decimal digit character. -/
def digitVal (c : Char) : Option ℕ :=
  if '0' ≤ c ∧ c ≤ '9' then some (c.toNat - 48) else none

/-- Read exactly two digits (`\d{2}`). -/
def read2 : List Char → Option (ℕ × List Char)
  | a :: b :: rest =>
    match digitVal a, digitVal b with
    | some x, some y => some (10 * x + y, rest)
    | _, _ => none
  | _ => none

/-- Read exactly four digits (`\d{4}`). -/
def read4 (cs : List Char) : Option (ℕ × List Char) :=
  match read2 cs with
  | some (hi, rest) =>
    match read2 rest with
    | some (lo, rest2) => some (100 * hi + lo, rest2)
    | none => none
  | none => none

/-- Regex `\s*`: drop leading whitespace. -/
def skipWS (cs : List Char) : List Char := cs.dropWhile isPySpace

/-- Read the `\d{2}` minute part after a colon. -/
def parseMM (h : ℕ) : List Char → Option (ℕ × ℕ × List Char)
  | a :: b :: rest =>
    match digitVal a, digitVal b with
    | some x, some y => some (h, 10 * x + y, rest)
    | _, _ => none
  | _ => none

/-- Read `\d{1,2}:\d{2}` (greedy hour with the regex's one backtracking point:
two digits are used only when a colon follows them). -/
def parseHM : List Char → Option (ℕ × ℕ × List Char)
  | [] => none
  | c1 :: rest1 =>
    match digitVal c1 with
    | none => none
    | some d1 =>
      match rest1 with
      | [] => none
      | c2 :: rest2 =>
        match digitVal c2 with
        | some d2 =>
          match rest2 with
          | c3 :: rest3 => if c3 = ':' then parseMM (10 * d1 + d2) rest3 else none
          | [] => none
        | none => if c2 = ':' then parseMM d1 rest2 else none

/-- Case-insensitive comparison against one letter. -/
def ci (c low up : Char) : Bool := c = low || c = up

/-- Body of `TIME_RE` after the leading `\s*`:
`(\d{1,2}:\d{2})\s*-\s*(\d{1,2}:\d{2})\s*Uhr\s*$`, ignoring case. -/
def timeCore (cs : List Char) : Option (ℕ × ℕ × ℕ × ℕ) :=
  match parseHM cs with
  | none => none
  | some (sh, sm, r1) =>
    match skipWS r1 with
    | [] => none
    | c :: r2 =>
      if c = '-' then
        match parseHM (skipWS r2) with
        | none => none
        | some (eh, em, r3) =>
          match skipWS r3 with
          | u :: h :: r :: r4 =>
            if ci u 'u' 'U' && ci h 'h' 'H' && ci r 'r' 'R' && (skipWS r4).isEmpty then
              some (sh, sm, eh, em)
            else none
          | _ => none
      else none

/-- Matcher for `TIME_RE.match`, returning the four captured numbers. -/
def timeMatch (cs : List Char) : Option (ℕ × ℕ × ℕ × ℕ) := timeCore (skipWS cs)

/-- Body of `ALLDAY_RE` after the leading `\s*`: `ganzer\s+Tag\s*$`, ignoring case. -/
def alldayCore : List Char → Bool
  | g :: a :: n :: z :: e :: r :: rest =>
    ci g 'g' 'G' && ci a 'a' 'A' && ci n 'n' 'N' && ci z 'z' 'Z' && ci e 'e' 'E' &&
    ci r 'r' 'R' &&
    (match rest with
     | c :: _ => isPySpace c
     | [] => false) &&
    (match skipWS rest with
     | t :: a2 :: g2 :: rest2 =>
       ci t 't' 'T' && ci a2 'a' 'A' && ci g2 'g' 'G' && (skipWS rest2).isEmpty
     | _ => false)
  | _ => false

/-- Matcher for `ALLDAY_RE.match` as a Boolean. -/
def alldayMatch (cs : List Char) : Bool := alldayCore (skipWS cs)

/-- Regex word character (`\w`), ASCII fragment. -/
def isWordChar (c : Char) : Bool := c.isAlphanum || c = '_'

/-- Body of `PHASE_RE` after the leading `\s*`: `Phase\b`, ignoring case. -/
def phaseCore : List Char → Bool
  | p :: h :: a :: s :: e :: rest =>
    ci p 'p' 'P' && ci h 'h' 'H' && ci a 'a' 'A' && ci s 's' 'S' && ci e 'e' 'E' &&
    (match rest with
     | [] => true
     | c :: _ => !isWordChar c)
  | _ => false

/-- Matcher for `PHASE_RE.match` as a Boolean. -/
def phaseMatch (cs : List Char) : Bool := phaseCore (skipWS cs)

/-- Body of `DATE_SINGLE_RE` after the leading `\s*`:
`(\d{2}\.\d{2}\.\d{4})\s*$`, returning (day, month, year). -/
def singleCore (cs : List Char) : Option (ℕ × ℕ × ℕ) :=
  match read2 cs with
  | some (d, c1 :: r1) =>
    if c1 = '.' then
      match read2 r1 with
      | some (m, c2 :: r2) =>
        if c2 = '.' then
          match read4 r2 with
          | some (y, r3) => if (skipWS r3).isEmpty then some (d, m, y) else none
          | none => none
        else none
      | _ => none
    else none
  | _ => none

/-- Matcher for `DATE_SINGLE_RE.match`, returning (day, month, year). -/
def singleMatch (cs : List Char) : Option (ℕ × ℕ × ℕ) := singleCore (skipWS cs)

/-- Body of `DATE_RANGE_RE` after the leading `\s*`:
`(\d{2}\.\d{2})\.\s*-\s*(\d{2}\.\d{2}\.\d{4})\s*$`,
returning (start day, start month, end day, end month, end year). -/
def rangeCore (cs : List Char) : Option (ℕ × ℕ × ℕ × ℕ × ℕ) :=
  match read2 cs with
  | some (sd, c1 :: r1) =>
    if c1 = '.' then
      match read2 r1 with
      | some (sm, c2 :: r2) =>
        if c2 = '.' then
          match skipWS r2 with
          | c3 :: r3 =>
            if c3 = '-' then
              match read2 (skipWS r3) with
              | some (ed, c4 :: r4) =>
                if c4 = '.' then
                  match read2 r4 with
                  | some (em, c5 :: r5) =>
                    if c5 = '.' then
                      match read4 r5 with
                      | some (ey, r6) =>
                        if (skipWS r6).isEmpty then some (sd, sm, ed, em, ey) else none
                      | none => none
                    else none
                  | _ => none
                else none
              | _ => none
            else none
          | [] => none
        else none
      | _ => none
    else none
  | _ => none

/-- Matcher for `DATE_RANGE_RE.match`. -/
def rangeMatch (cs : List Char) : Option (ℕ × ℕ × ℕ × ℕ × ℕ) := rangeCore (skipWS cs)

/-- Embeds `datetime.time(h, m)`: validates both fields, raising `ValueError` otherwise. -/
def mkTime (h m : ℕ) : Except String (ℕ × ℕ) :=
  if 23 < h then .error "ValueError: hour must be in 0..23"
  else if 59 < m then .error "ValueError: minute must be in 0..59"
  else .ok (h, m)

/-- Embeds `parse_time_range`: all-day marker, else the timed pattern, else a defined miss. -/
def parse_time_range (time_str : String) :
    Except String (Option (ℕ × ℕ) × Option (ℕ × ℕ) × Bool) :=
  let t := normalize_space time_str
  if alldayMatch t then .ok (none, none, true)
  else
    match timeMatch t with
    | none => .ok (none, none, false)
    | some (sh, sm, eh, em) =>
      match mkTime sh sm with
      | .error e => .error e
      | .ok st =>
        match mkTime eh em with
        | .error e => .error e
        | .ok et => .ok (some st, some et, false)

/-- Gregorian leap year, as `calendar.isleap` / `datetime` use it. -/
def isLeap (y : ℕ) : Bool := (y % 4 = 0 && y % 100 ≠ 0) || y % 400 = 0

/-- Length of a month. -/
def daysInMonth (y m : ℕ) : ℕ :=
  match m with
  | 1 => 31
  | 2 => if isLeap y then 29 else 28
  | 3 => 31
  | 4 => 30
  | 5 => 31
  | 6 => 30
  | 7 => 31
  | 8 => 31
  | 9 => 30
  | 10 => 31
  | 11 => 30
  | 12 => 31
  | _ => 0

/-- Days in year `y` strictly before month `m`. -/
def daysBeforeMonth (y : ℕ) : ℕ → ℕ
  | 0 => 0
  | 1 => 0
  | m + 1 => daysBeforeMonth y m + daysInMonth y m

/-- Days strictly before year `y` in the proleptic Gregorian calendar. -/
def daysBeforeYear (y : ℕ) : ℕ :=
  365 * (y - 1) + (y - 1) / 4 + (y - 1) / 400 - (y - 1) / 100

/-- Embeds `date(y, m, d).toordinal()`. -/
def toOrdinal (y m d : ℕ) : ℕ := daysBeforeYear y + daysBeforeMonth y m + d

/-- Embeds `datetime.strptime(_, "%d.%m.%Y").date()`: field validation then the ordinal. -/
def mkDate (y m d : ℕ) : Except String ℕ :=
  if y < 1 ∨ 9999 < y then .error "ValueError: year is out of range"
  else if m < 1 ∨ 12 < m then .error "ValueError: month must be in 1..12"
  else if d < 1 ∨ daysInMonth y m < d then .error "ValueError: day is out of range for month"
  else .ok (toOrdinal y m d)

/-- The three date-info kinds returned by `parse_dateinfo`. -/
inductive DateInfo where
  | single (d : ℕ)
  | range (startD endD : ℕ)
  | phase
deriving DecidableEq, Repr

/-- Embeds `parse_dateinfo`: single date, else weekly range (start inherits the end's
year), else phase — where both the explicit `Phase` prefix and any
unrecognized text produce `phase`. -/
def parse_dateinfo (dateinfo : String) : Except String DateInfo :=
  let di := normalize_space dateinfo
  match singleMatch di with
  | some (d, m, y) =>
    match mkDate y m d with
    | .error e => .error e
    | .ok dd => .ok (.single dd)
  | none =>
    match rangeMatch di with
    | some (sd, sm, ed, em, ey) =>
      match mkDate ey em ed with
      | .error e => .error e
      | .ok endD =>
        match mkDate ey sm sd with
        | .error e => .error e
        | .ok startD => .ok (.range startD endD)
    | none =>
      if phaseMatch di then .ok .phase else .ok .phase

/-- Embeds `DOW_MAP.get`. -/
def DOW_MAP (s : String) : Option ℕ :=
  if s = "Mo" then some 0
  else if s = "Di" then some 1
  else if s = "Mi" then some 2
  else if s = "Do" then some 3
  else if s = "Fr" then some 4
  else if s = "Sa" then some 5
  else if s = "So" then some 6
  else none

def SEARCH_URL : String := "https://www.zssw.unibe.ch/usp/zms/search.php"

def DEFAULT_TIMEZONE : String := "Europe/Zurich"

/-- One parsed listing line. -/
structure RawRow where
  title : String
  href : Option String
  dow : String
  time_str : String
  dateinfo : String
  location : String
  rest : String
deriving DecidableEq, Repr

/-- Embeds `date.weekday()` on an ordinal: 0 = Monday. -/
def pyWeekday (d : ℕ) : ℕ := (d + 6) % 7

/-- Embeds `next_date_for_weekday`: first date on or after `fromDate` with the given
weekday; the subtraction and `% 7` happen in ℤ exactly as Python's `%` does. -/
def next_date_for_weekday (fromDate weekdayIdx : ℕ) : ℕ :=
  fromDate + (((weekdayIdx : ℤ) - (pyWeekday fromDate : ℤ)) % 7).toNat

/-- The `while d <= end` loop body, driven by sufficient fuel. -/
def weeklyUpToFuel : ℕ → ℕ → ℕ → List ℕ
  | 0, _, _ => []
  | fuel + 1, d, e => if d ≤ e then d :: weeklyUpToFuel fuel (d + 7) e else []

/-- Dates `d, d+7, d+14, ...` up to and including `e`. -/
def weeklyUpTo (d e : ℕ) : List ℕ := weeklyUpToFuel (e + 1 - d) d e

/-- Embeds `daterange_weekly`, including the (dead) `first < start` adjustment. -/
def daterange_weekly (start e weekdayIdx : ℕ) : List ℕ :=
  let first := next_date_for_weekday start weekdayIdx
  let first := if first < start then first + 7 else first
  weeklyUpTo first e

/-- The value of an event's `"start"`/`"end"` field: a date-only ISO string or
a datetime ISO string (date ordinal plus clock time). -/
inductive EvStart where
  | dateOnly (d : ℕ)
  | dateTime (d : ℕ) (t : ℕ × ℕ)
deriving DecidableEq, Repr

/-- The `extendedProps` bag. -/
structure ExtProps where
  dow : String
  time : String
  dateinfo : String
  location : String
  notes : String
  source : String
  tz : String
deriving DecidableEq, Repr

/-- One output event record. -/
structure Event where
  title : String
  url : Option String
  extendedProps : ExtProps
  start : EvStart
  ev_end : Option EvStart
  allDay : Bool
deriving DecidableEq, Repr

/-- The `base` dictionary shared by all events of one row. -/
def mkProps (r : RawRow) : ExtProps :=
  { dow := r.dow, time := r.time_str, dateinfo := r.dateinfo, location := r.location,
    notes := r.rest, source := SEARCH_URL, tz := DEFAULT_TIMEZONE }

/-- The inner `add_event(day)`: an all-day event, a timed event, or nothing. -/
def add_event (r : RawRow) (start_t end_t : Option (ℕ × ℕ)) (all_day : Bool)
    (day : ℕ) : Option Event :=
  if all_day then
    some { title := r.title, url := r.href, extendedProps := mkProps r,
           start := .dateOnly day, ev_end := none, allDay := true }
  else
    match start_t, end_t with
    | some st, some et =>
      some { title := r.title, url := r.href, extendedProps := mkProps r,
             start := .dateTime day st, ev_end := some (.dateTime day et), allDay := false }
    | _, _ => none

/-- The body of the `for r in rows` loop of `build_events`: the events one row
contributes, or the `ValueError` it raises. -/
def row_events (today lookahead : ℕ) (r : RawRow) : Except String (List Event) :=
  match DOW_MAP r.dow with
  | none => .ok []
  | some weekdayIdx =>
    match parse_time_range r.time_str with
    | .error e => .error e
    | .ok (start_t, end_t, all_day) =>
      match parse_dateinfo r.dateinfo with
      | .error e => .error e
      | .ok di =>
        let days : List ℕ :=
          match di with
          | .single d => [d]
          | .range d1 d2 => daterange_weekly d1 d2 weekdayIdx
          | .phase => weeklyUpTo (next_date_for_weekday today weekdayIdx) (today + lookahead)
        .ok (days.filterMap (add_event r start_t end_t all_day))

/-- Sequence a list of per-row results: the first raised error aborts the run. -/
def collectResults {α : Type} : List (Except String α) → Except String (List α)
  | [] => .ok []
  | .error e :: _ => .error e
  | .ok v :: rest =>
    match collectResults rest with
    | .error e => .error e
    | .ok vs => .ok (v :: vs)

/-- Numeric key realising the ISO-string order of start values: within one day
a date-only string precedes every datetime string, and datetimes compare by
their zero-padded clock time (minutes resolution; seconds are always 00). -/
def startKey : EvStart → ℕ
  | .dateOnly d => 1441 * d
  | .dateTime d t => 1441 * d + 1 + (60 * t.1 + t.2)

/-- Lexicographic order on code points, Python's string `<=`. -/
def lexLe : List Char → List Char → Bool
  | [], _ => true
  | _ :: _, [] => false
  | a :: as, b :: bs => if a < b then true else if b < a then false else lexLe as bs

/-- The sort key order `(ev["start"], ev["title"]) <= ...` of `build_events`. -/
def evLe (x y : Event) : Prop :=
  startKey x.start < startKey y.start ∨
    (startKey x.start = startKey y.start ∧ lexLe x.title.data y.title.data = true)

instance : DecidableRel evLe := fun x y => by
  unfold evLe; infer_instance

/-- Embeds `build_events(rows)` with `date.today()` and `PHASE_LOOKAHEAD_DAYS` passed
explicitly; the final stable sort by `(start, title)` is insertion sort. -/
def build_events (rows : List RawRow) (today lookahead : ℕ) :
    Except String (List Event) :=
  match collectResults (rows.map (row_events today lookahead)) with
  | .error e => .error e
  | .ok lists => .ok (List.insertionSort evLe lists.flatten)

/-- The calendar date carried by an event's start value. -/
def startOrd (ev : Event) : ℕ :=
  match ev.start with
  | .dateOnly d => d
  | .dateTime d _ => d

/-- Extract the payload of a success, with a default for errors. -/
def getOk {α : Type} (dflt : α) : Except String α → α
  | .ok v => v
  | .error _ => dflt

/-- The per-event invariant that the code actually maintains: all-day events
are date-only with no end; timed events carry start and end date-times built
from the same calendar day.  (No relation between the two clock times is
enforced.) -/
def eventShapeOk (ev : Event) : Prop :=
  (ev.allDay = true ∧ (∃ d, ev.start = .dateOnly d) ∧ ev.ev_end = none) ∨
  (ev.allDay = false ∧ ∃ d s t, ev.start = .dateTime d s ∧ ev.ev_end = some (.dateTime d t))

/-- The event `add_event` appends in the all-day case. -/
def alldayEv (r : RawRow) (day : ℕ) : Event :=
  { title := r.title, url := r.href, extendedProps := mkProps r,
    start := .dateOnly day, ev_end := none, allDay := true }

/-- The event `add_event` appends in the timed case. -/
def timedEv (r : RawRow) (s t : ℕ × ℕ) (day : ℕ) : Event :=
  { title := r.title, url := r.href, extendedProps := mkProps r,
    start := .dateTime day s, ev_end := some (.dateTime day t), allDay := false }

/-! ### Concrete rows used to instantiate the general statements -/

/-- A row whose time text runs backwards: end clock time before start. -/
def rowEndBeforeStart : RawRow :=
  { title := "Klettern", href := none, dow := "Mo", time_str := "18:15-17:00 Uhr",
    dateinfo := "05.01.2026", location := "Halle", rest := "" }

/-- An ordinary all-day row on a single date. -/
def rowAllDaySingle : RawRow :=
  { title := "Lauftreff", href := none, dow := "Di", time_str := "ganzer Tag",
    dateinfo := "06.01.2026", location := "Stadion", rest := "" }

/-- A row whose hour field is out of range: the pattern matches, `time()` raises. -/
def rowBadHour : RawRow :=
  { title := "Nachtlauf", href := none, dow := "Mo", time_str := "25:00-26:00 Uhr",
    dateinfo := "Phase 1", location := "Wald", rest := "" }

/-- A row with unrecognized time text and an impossible single date. -/
def rowBadDate : RawRow :=
  { title := "Schwimmen", href := none, dow := "Mo", time_str := "siehe Aushang",
    dateinfo := "31.02.2026", location := "Bad", rest := "" }

/-- A row whose weekday code is not one of the seven tokens. -/
def rowBadDow : RawRow :=
  { title := "Rudern", href := none, dow := "XX", time_str := "18:15-19:45 Uhr",
    dateinfo := "05.01.2026", location := "See", rest := "" }

/-- A timed weekly-phase row on Mondays. -/
def rowPhaseMo : RawRow :=
  { title := "Yoga", href := none, dow := "Mo", time_str := "18:15-19:45 Uhr",
    dateinfo := "Phase 2", location := "Gymnastikraum", rest := "" }

/-- A timed single-date row whose weekday code (Monday) contradicts the date
(2026-01-06 is a Tuesday). -/
def rowWrongDow : RawRow :=
  { title := "Boxen", href := none, dow := "Mo", time_str := "18:15-19:45 Uhr",
    dateinfo := "06.01.2026", location := "Ring", rest := "" }

/-- The event built from `rowEndBeforeStart`: its end precedes its start. -/
def evEndBeforeStart : Event := timedEv rowEndBeforeStart (18, 15) (17, 0) (toOrdinal 2026 1 5)

/-- Two rows identical up to their location: they produce events with equal
sort keys, so the stable sort keeps them in input order. -/
def rowTwinA : RawRow :=
  { title := "Pilates", href := none, dow := "Mo", time_str := "18:15-19:45 Uhr",
    dateinfo := "05.01.2026", location := "Raum 1", rest := "" }

/-- Second twin row, distinguishable only by its location. -/
def rowTwinB : RawRow :=
  { title := "Pilates", href := none, dow := "Mo", time_str := "18:15-19:45 Uhr",
    dateinfo := "05.01.2026", location := "Raum 2", rest := "" }

/-! ### Facts about the weekly stepping loop -/

theorem weeklyUpToFuel_congr : ∀ (f1 f2 d e : ℕ), e + 1 - d ≤ f1 → e + 1 - d ≤ f2 →
    weeklyUpToFuel f1 d e = weeklyUpToFuel f2 d e := by
  intro f1
  induction f1 with
  | zero =>
    intro f2 d e h1 _
    cases f2 with
    | zero => rfl
    | succ k =>
      simp only [weeklyUpToFuel]
      rw [if_neg (by omega)]
  | succ n ih =>
    intro f2 d e h1 h2
    cases f2 with
    | zero =>
      simp only [weeklyUpToFuel]
      rw [if_neg (by omega)]
    | succ k =>
      simp only [weeklyUpToFuel]
      by_cases hd : d ≤ e
      · rw [if_pos hd, if_pos hd, ih k (d + 7) e (by omega) (by omega)]
      · rw [if_neg hd, if_neg hd]

theorem weeklyUpTo_eq (d e : ℕ) :
    weeklyUpTo d e = if d ≤ e then d :: weeklyUpTo (d + 7) e else [] := by
  unfold weeklyUpTo
  by_cases hd : d ≤ e
  · rw [if_pos hd]
    obtain ⟨k, hk⟩ : ∃ k, e + 1 - d = k + 1 := ⟨e - d, by omega⟩
    rw [hk]
    simp only [weeklyUpToFuel, if_pos hd]
    rw [weeklyUpToFuel_congr k (e + 1 - (d + 7)) (d + 7) e (by omega) (by omega)]
  · rw [if_neg hd]
    have h0 : e + 1 - d = 0 := by omega
    rw [h0]
    rfl

theorem mem_weeklyUpToFuel : ∀ (f d e x : ℕ), e + 1 - d ≤ f →
    (x ∈ weeklyUpToFuel f d e ↔ d ≤ x ∧ x ≤ e ∧ (x - d) % 7 = 0) := by
  intro f
  induction f with
  | zero =>
    intro d e x h
    simp only [weeklyUpToFuel, List.not_mem_nil, false_iff]
    omega
  | succ n ih =>
    intro d e x h
    simp only [weeklyUpToFuel]
    by_cases hd : d ≤ e
    · rw [if_pos hd]
      simp only [List.mem_cons]
      rw [ih (d + 7) e x (by omega)]
      omega
    · rw [if_neg hd]
      simp only [List.not_mem_nil, false_iff]
      omega

theorem mem_weeklyUpTo (d e x : ℕ) :
    x ∈ weeklyUpTo d e ↔ d ≤ x ∧ x ≤ e ∧ (x - d) % 7 = 0 :=
  mem_weeklyUpToFuel (e + 1 - d) d e x (le_refl _)

theorem weeklyUpToFuel_head : ∀ (f d e : ℕ),
    weeklyUpToFuel f d e = [] ∨ ∃ t, weeklyUpToFuel f d e = d :: t := by
  intro f d e
  cases f with
  | zero => exact Or.inl rfl
  | succ n =>
    simp only [weeklyUpToFuel]
    by_cases hd : d ≤ e
    · exact Or.inr ⟨_, by rw [if_pos hd]⟩
    · exact Or.inl (by rw [if_neg hd])

theorem weeklyUpToFuel_chain : ∀ (f d e : ℕ),
    List.Chain' (fun a b => b = a + 7) (weeklyUpToFuel f d e) := by
  intro f
  induction f with
  | zero => intro d e; exact List.chain'_nil
  | succ n ih =>
    intro d e
    simp only [weeklyUpToFuel]
    by_cases hd : d ≤ e
    · rw [if_pos hd]
      rw [List.chain'_cons']
      refine ⟨?_, ih (d + 7) e⟩
      intro y hy
      rcases weeklyUpToFuel_head n (d + 7) e with h0 | ⟨t, ht⟩
      · rw [h0] at hy
        simp at hy
      · rw [ht] at hy
        simp only [List.head?_cons, Option.mem_def, Option.some.injEq] at hy
        omega
    · rw [if_neg hd]
      exact List.chain'_nil

theorem weeklyUpTo_chain (d e : ℕ) :
    List.Chain' (fun a b => b = a + 7) (weeklyUpTo d e) :=
  weeklyUpToFuel_chain _ d e

theorem weeklyUpToFuel_pairwise_lt : ∀ (f d e : ℕ), e + 1 - d ≤ f →
    List.Pairwise (· < ·) (weeklyUpToFuel f d e) := by
  intro f
  induction f with
  | zero => intro d e _; exact List.Pairwise.nil
  | succ n ih =>
    intro d e h
    simp only [weeklyUpToFuel]
    by_cases hd : d ≤ e
    · rw [if_pos hd]
      refine List.Pairwise.cons ?_ (ih (d + 7) e (by omega))
      intro y hy
      have := (mem_weeklyUpToFuel n (d + 7) e y (by omega)).1 hy
      omega
    · rw [if_neg hd]
      exact List.Pairwise.nil

theorem weeklyUpTo_pairwise_lt (d e : ℕ) :
    List.Pairwise (· < ·) (weeklyUpTo d e) :=
  weeklyUpToFuel_pairwise_lt _ d e (le_refl _)

/-! ### Facts about `next_date_for_weekday` and `DOW_MAP` -/

theorem next_date_spec (d wd : ℕ) (hwd : wd < 7) :
    d ≤ next_date_for_weekday d wd ∧ next_date_for_weekday d wd < d + 7 ∧
      pyWeekday (next_date_for_weekday d wd) = wd := by
  unfold next_date_for_weekday pyWeekday
  omega

theorem DOW_MAP_lt {s : String} {w : ℕ} (h : DOW_MAP s = some w) : w < 7 := by
  unfold DOW_MAP at h
  split_ifs at h <;> simp only [Option.some.injEq] at h <;> omega

/-! ### The sort order -/

theorem lexLe_total : ∀ as bs : List Char, lexLe as bs = true ∨ lexLe bs as = true := by
  intro as
  induction as with
  | nil => intro bs; exact Or.inl rfl
  | cons a as ih =>
    intro bs
    cases bs with
    | nil => exact Or.inr rfl
    | cons b bs =>
      rcases lt_trichotomy a b with h | h | h
      · left; simp [lexLe, h]
      · subst h
        rcases ih bs with h2 | h2
        · left; simp [lexLe, h2]
        · right; simp [lexLe, h2]
      · right; simp [lexLe, h]

theorem lexLe_trans : ∀ as bs cs : List Char,
    lexLe as bs = true → lexLe bs cs = true → lexLe as cs = true := by
  intro as
  induction as with
  | nil => intro bs cs _ _; rfl
  | cons a as ih =>
    intro bs cs h1 h2
    cases bs with
    | nil => simp [lexLe] at h1
    | cons b bs =>
      cases cs with
      | nil => simp [lexLe] at h2
      | cons c cs =>
        simp only [lexLe] at h1 h2 ⊢
        by_cases hab : a < b
        · simp only [hab, if_true] at h1
          by_cases hbc : b < c
          · simp [lt_trans hab hbc]
          · by_cases hcb : c < b
            · simp only [hbc, if_false, hcb, if_true] at h2
              cases h2
            · have : b = c := le_antisymm (not_lt.1 hcb) (not_lt.1 hbc)
              subst this
              simp [hab]
        · by_cases hba : b < a
          · simp only [hab, if_false, hba, if_true] at h1
            cases h1
          · have hEqab : a = b := le_antisymm (not_lt.1 hba) (not_lt.1 hab)
            subst hEqab
            simp only [lt_irrefl, if_false] at h1
            by_cases hbc : a < c
            · simp [hbc]
            · by_cases hcb : c < a
              · simp only [hbc, if_false, hcb, if_true] at h2
                cases h2
              · have : a = c := le_antisymm (not_lt.1 hcb) (not_lt.1 hbc)
                subst this
                simp only [lt_irrefl, if_false] at h2 ⊢
                exact ih _ _ h1 h2

theorem lexLe_antisymm : ∀ as bs : List Char,
    lexLe as bs = true → lexLe bs as = true → as = bs := by
  intro as
  induction as with
  | nil =>
    intro bs _ h2
    cases bs with
    | nil => rfl
    | cons b bs => simp [lexLe] at h2
  | cons a as ih =>
    intro bs h1 h2
    cases bs with
    | nil => simp [lexLe] at h1
    | cons b bs =>
      simp only [lexLe] at h1 h2
      by_cases hab : a < b
      · simp only [not_lt_of_gt hab, if_false, hab, if_true] at h2
        cases h2
      · by_cases hba : b < a
        · simp only [hab, if_false, hba, if_true] at h1
          cases h1
        · have : a = b := le_antisymm (not_lt.1 hba) (not_lt.1 hab)
          subst this
          simp only [lt_irrefl, if_false] at h1 h2
          rw [ih bs h1 h2]

instance : IsTotal Event evLe := by
  constructor
  intro a b
  unfold evLe
  rcases Nat.lt_trichotomy (startKey a.start) (startKey b.start) with h | h | h
  · exact Or.inl (Or.inl h)
  · rcases lexLe_total a.title.data b.title.data with h2 | h2
    · exact Or.inl (Or.inr ⟨h, h2⟩)
    · exact Or.inr (Or.inr ⟨h.symm, h2⟩)
  · exact Or.inr (Or.inl h)

instance : IsTrans Event evLe := by
  constructor
  intro a b c h1 h2
  unfold evLe at h1 h2 ⊢
  rcases h1 with h1 | ⟨h1e, h1t⟩
  · rcases h2 with h2 | ⟨h2e, _⟩
    · exact Or.inl (lt_trans h1 h2)
    · exact Or.inl (h2e ▸ h1)
  · rcases h2 with h2 | ⟨h2e, h2t⟩
    · exact Or.inl (h1e ▸ h2)
    · exact Or.inr ⟨h1e.trans h2e, lexLe_trans _ _ _ h1t h2t⟩

/-- Mutual `evLe` forces equal sort keys (start key and title). -/
theorem evLe_antisymm_key {a b : Event} (h1 : evLe a b) (h2 : evLe b a) :
    startKey a.start = startKey b.start ∧ a.title = b.title := by
  unfold evLe at h1 h2
  rcases h1 with h1 | ⟨h1e, h1t⟩
  · rcases h2 with h2 | ⟨h2e, _⟩
    · omega
    · omega
  · rcases h2 with h2 | ⟨h2e, h2t⟩
    · omega
    · exact ⟨h1e, String.ext (lexLe_antisymm _ _ h1t h2t)⟩

/-! ### Facts about `collectResults` -/

theorem collectResults_mem {α : Type} :
    ∀ {xs : List (Except String α)} {ls : List α}, collectResults xs = .ok ls →
      ∀ l ∈ ls, Except.ok l ∈ xs := by
  intro xs
  induction xs with
  | nil =>
    intro ls h l hl
    simp only [collectResults, Except.ok.injEq] at h
    subst h
    simp at hl
  | cons x xs ih =>
    intro ls h l hl
    cases x with
    | error e => simp [collectResults] at h
    | ok v =>
      simp only [collectResults] at h
      cases hc : collectResults xs with
      | error e => rw [hc] at h; cases h
      | ok vs =>
        rw [hc] at h
        simp only [Except.ok.injEq] at h
        subst h
        rcases List.mem_cons.1 hl with rfl | hl2
        · exact List.mem_cons_self _ _
        · exact List.mem_cons_of_mem _ (ih hc l hl2)

theorem collectResults_ok_map {α : Type} (dflt : α) :
    ∀ {xs : List (Except String α)} {ls : List α}, collectResults xs = .ok ls →
      ls = xs.map (getOk dflt) := by
  intro xs
  induction xs with
  | nil =>
    intro ls h
    simp only [collectResults, Except.ok.injEq] at h
    subst h
    rfl
  | cons x xs ih =>
    intro ls h
    cases x with
    | error e => simp [collectResults] at h
    | ok v =>
      simp only [collectResults] at h
      cases hc : collectResults xs with
      | error e => rw [hc] at h; cases h
      | ok vs =>
        rw [hc] at h
        simp only [Except.ok.injEq] at h
        subst h
        simp only [List.map_cons, getOk, List.cons.injEq, true_and]
        exact ih hc

theorem collectResults_all_ok {α : Type} :
    ∀ {xs : List (Except String α)} {ls : List α}, collectResults xs = .ok ls →
      ∀ x ∈ xs, ∃ v, x = .ok v := by
  intro xs
  induction xs with
  | nil => intro ls _ x hx; simp at hx
  | cons x xs ih =>
    intro ls h y hy
    cases x with
    | error e => simp [collectResults] at h
    | ok v =>
      simp only [collectResults] at h
      cases hc : collectResults xs with
      | error e => rw [hc] at h; cases h
      | ok vs =>
        rcases List.mem_cons.1 hy with rfl | hy2
        · exact ⟨v, rfl⟩
        · exact ih hc y hy2

theorem collectResults_ok_of_all_ok {α : Type} (dflt : α) :
    ∀ {xs : List (Except String α)}, (∀ x ∈ xs, ∃ v, x = .ok v) →
      collectResults xs = .ok (xs.map (getOk dflt)) := by
  intro xs
  induction xs with
  | nil => intro _; rfl
  | cons x xs ih =>
    intro h
    obtain ⟨v, rfl⟩ := h x (List.mem_cons_self _ _)
    simp only [collectResults]
    rw [ih (fun y hy => h y (List.mem_cons_of_mem _ hy))]
    rfl

/-! ### Matcher facts: the recognizers are mutually exclusive where the code
relies on their priority order -/

theorem digitVal_some_bounds {c : Char} {x : ℕ} (h : digitVal c = some x) :
    '0' ≤ c ∧ c ≤ '9' := by
  by_cases hc : ('0' ≤ c ∧ c ≤ '9')
  · exact hc
  · rw [digitVal, if_neg hc] at h
    exact Option.noConfusion h

theorem digitVal_of_space {c : Char} (h : isPySpace c = true) : digitVal c = none := by
  simp only [isPySpace, Bool.or_eq_true, decide_eq_true_eq] at h
  rcases h with ((((rfl | rfl) | rfl) | rfl) | rfl) | rfl <;> decide

theorem parseHM_head_digit {c : Char} {rest : List Char} {q : ℕ × ℕ × List Char}
    (h : parseHM (c :: rest) = some q) : ∃ x, digitVal c = some x := by
  cases hd : digitVal c with
  | some x => exact ⟨x, rfl⟩
  | none =>
    rw [parseHM, hd] at h
    simp at h

theorem alldayCore_digit_head {c : Char} {rest : List Char} {x : ℕ}
    (h : digitVal c = some x) : alldayCore (c :: rest) = false := by
  have hb := digitVal_some_bounds h
  have hg : ci c 'g' 'G' = false := by
    simp only [ci, Bool.or_eq_false_iff, decide_eq_false_iff_not]
    refine ⟨fun hc => ?_, fun hc => ?_⟩ <;> subst hc <;> revert hb <;> decide
  rcases rest with _ | ⟨a, rest⟩; · rfl
  rcases rest with _ | ⟨n, rest⟩; · rfl
  rcases rest with _ | ⟨z, rest⟩; · rfl
  rcases rest with _ | ⟨e, rest⟩; · rfl
  rcases rest with _ | ⟨r, rest⟩; · rfl
  simp [alldayCore, hg]

/-- A string matched by `TIME_RE` is not matched by `ALLDAY_RE`: the code's
all-day check firing first cannot shadow a timed match. -/
theorem timeMatch_not_allday {cs : List Char} {q : ℕ × ℕ × ℕ × ℕ}
    (h : timeMatch cs = some q) : alldayMatch cs = false := by
  unfold timeMatch at h
  unfold alldayMatch
  cases hl : skipWS cs with
  | nil =>
    rw [hl] at h
    simp [timeCore, parseHM] at h
  | cons c rest =>
    rw [hl] at h
    unfold timeCore at h
    cases hp : parseHM (c :: rest) with
    | none => rw [hp] at h; simp at h
    | some val =>
      obtain ⟨x, hx⟩ := parseHM_head_digit hp
      exact alldayCore_digit_head hx

theorem read2_none_of_head_not_digit {c : Char} {rest : List Char}
    (h : digitVal c = none) : read2 (c :: rest) = none := by
  cases rest with
  | nil => rfl
  | cons b rest => simp [read2, h]

/-- A string matched by `DATE_RANGE_RE` is not matched by `DATE_SINGLE_RE`:
after `DD.MM.` the range pattern requires whitespace or a dash where the
single pattern requires a digit. -/
theorem rangeMatch_single_none {cs : List Char} {q : ℕ × ℕ × ℕ × ℕ × ℕ}
    (h : rangeMatch cs = some q) : singleMatch cs = none := by
  unfold rangeMatch at h
  unfold singleMatch
  revert h
  generalize skipWS cs = l
  intro h
  unfold rangeCore at h
  unfold singleCore
  cases h1 : read2 l with
  | none => rfl
  | some p =>
    obtain ⟨d1, r1⟩ := p
    cases r1 with
    | nil => rfl
    | cons c1 r1' =>
      rw [h1] at h
      simp only [] at h ⊢
      by_cases hc1 : c1 = '.'
      · rw [if_pos hc1] at h
        rw [if_pos hc1]
        cases h2 : read2 r1' with
        | none => rfl
        | some p2 =>
          obtain ⟨d2, r2⟩ := p2
          cases r2 with
          | nil => rfl
          | cons c2 r2' =>
            rw [h2] at h
            simp only [] at h ⊢
            by_cases hc2 : c2 = '.'
            · rw [if_pos hc2] at h
              rw [if_pos hc2]
              -- the range pattern now needs `skipWS r2'` to open with a dash,
              -- hence `r2'` opens with a space or a dash, never a digit
              cases r2' with
              | nil => rfl
              | cons c3 r3 =>
                by_cases hsp : isPySpace c3 = true
                · have hn : read2 (c3 :: r3) = none :=
                    read2_none_of_head_not_digit (digitVal_of_space hsp)
                  simp [read4, hn]
                · have hskip : skipWS (c3 :: r3) = c3 :: r3 := by
                    simp [skipWS, List.dropWhile_cons, hsp]
                  rw [hskip] at h
                  simp only [] at h
                  by_cases hc3 : c3 = '-'
                  · subst hc3
                    have hn : read2 ('-' :: r3) = none :=
                      read2_none_of_head_not_digit (by decide)
                    simp [read4, hn]
                  · rw [if_neg hc3] at h
                    simp at h
            · rw [if_neg hc2] at h
              simp at h
      · rw [if_neg hc1] at h
        simp at h

/-! ### Shapes of produced events -/

theorem add_event_shape {r : RawRow} {st et : Option (ℕ × ℕ)} {ad : Bool} {day : ℕ}
    {ev : Event} (h : add_event r st et ad day = some ev) : eventShapeOk ev := by
  unfold add_event at h
  by_cases had : ad = true
  · rw [if_pos had] at h
    obtain rfl := Option.some.inj h
    exact Or.inl ⟨rfl, ⟨day, rfl⟩, rfl⟩
  · rw [if_neg had] at h
    cases st with
    | none => simp at h
    | some s =>
      cases et with
      | none => simp at h
      | some t =>
        simp only [Option.some.injEq] at h
        subst h
        exact Or.inr ⟨rfl, day, s, t, rfl, rfl⟩

theorem row_events_shape {today lookahead : ℕ} {r : RawRow} {l : List Event}
    (h : row_events today lookahead r = .ok l) : ∀ ev ∈ l, eventShapeOk ev := by
  intro ev hev
  unfold row_events at h
  cases hdow : DOW_MAP r.dow with
  | none =>
    rw [hdow] at h
    simp only [Except.ok.injEq] at h
    subst h
    simp at hev
  | some wd =>
    rw [hdow] at h
    simp only [] at h
    cases ht : parse_time_range r.time_str with
    | error e => rw [ht] at h; simp at h
    | ok trip =>
      rw [ht] at h
      obtain ⟨st, et, ad⟩ := trip
      simp only [] at h
      cases hdi : parse_dateinfo r.dateinfo with
      | error e => rw [hdi] at h; simp at h
      | ok di =>
        rw [hdi] at h
        simp only [Except.ok.injEq] at h
        subst h
        obtain ⟨day, _, hadd⟩ := List.mem_filterMap.1 hev
        exact add_event_shape hadd

/-- Decomposition of a successful `build_events` run: the output is the
stable sort of the concatenation of the per-row event lists, and every row
parsed without raising. -/
theorem build_events_ok_decomp {rows : List RawRow} {today lookahead : ℕ}
    {evs : List Event} (h : build_events rows today lookahead = .ok evs) :
    evs = List.insertionSort evLe
        ((rows.map (fun r => getOk [] (row_events today lookahead r))).flatten) ∧
      ∀ r ∈ rows, ∃ l, row_events today lookahead r = .ok l := by
  unfold build_events at h
  cases hc : collectResults (rows.map (row_events today lookahead)) with
  | error e => rw [hc] at h; cases h
  | ok lists =>
    rw [hc] at h
    simp only [Except.ok.injEq] at h
    subst h
    constructor
    · rw [collectResults_ok_map [] hc, List.map_map]
      rfl
    · intro r hr
      obtain ⟨v, hv⟩ := collectResults_all_ok hc _ (List.mem_map_of_mem _ hr)
      exact ⟨v, hv⟩

theorem build_events_singleton (r : RawRow) (today lookahead : ℕ) :
    build_events [r] today lookahead =
      match row_events today lookahead r with
      | .error e => .error e
      | .ok l => .ok (List.insertionSort evLe l) := by
  unfold build_events
  cases hr : row_events today lookahead r with
  | error e => simp [collectResults, hr]
  | ok l => simp [collectResults, hr]

theorem row_events_eval {today lookahead : ℕ} {r : RawRow} {wd : ℕ}
    {st et : Option (ℕ × ℕ)} {ad : Bool} {di : DateInfo}
    (hdow : DOW_MAP r.dow = some wd)
    (ht : parse_time_range r.time_str = .ok (st, et, ad))
    (hdi : parse_dateinfo r.dateinfo = .ok di) :
    row_events today lookahead r = .ok
      ((match di with
        | .single d => [d]
        | .range d1 d2 => daterange_weekly d1 d2 wd
        | .phase =>
          weeklyUpTo (next_date_for_weekday today wd) (today + lookahead)).filterMap
        (add_event r st et ad)) := by
  unfold row_events
  rw [hdow]
  simp only []
  rw [ht]
  simp only []
  rw [hdi]

theorem filterMap_some_comp {α β : Type} (f : α → β) (l : List α) :
    l.filterMap (fun a => some (f a)) = l.map f := by
  induction l with
  | nil => rfl
  | cons a l ih => simp [List.filterMap_cons, ih]

theorem add_event_eq_allday (r : RawRow) (st et : Option (ℕ × ℕ)) (day : ℕ) :
    add_event r st et true day = some (alldayEv r day) := rfl

theorem add_event_eq_timed (r : RawRow) (s t : ℕ × ℕ) (day : ℕ) :
    add_event r (some s) (some t) false day = some (timedEv r s t day) := rfl

theorem startOrd_alldayEv (r : RawRow) (day : ℕ) : startOrd (alldayEv r day) = day := rfl

theorem startOrd_timedEv (r : RawRow) (s t : ℕ × ℕ) (day : ℕ) :
    startOrd (timedEv r s t day) = day := rfl

theorem evLe_alldayEv {r : RawRow} {a b : ℕ} (h : a < b) :
    evLe (alldayEv r a) (alldayEv r b) := by
  left
  simp only [alldayEv, startKey]
  omega

theorem evLe_timedEv {r : RawRow} {s t : ℕ × ℕ} {a b : ℕ} (h : a < b) :
    evLe (timedEv r s t a) (timedEv r s t b) := by
  left
  simp only [timedEv, startKey]
  omega

/-- The events a usable row contributes, as a map over its occurrence days. -/
theorem filterMap_add_event_usable (r : RawRow) (st et : Option (ℕ × ℕ)) (ad : Bool)
    (husable : ad = true ∨ ∃ s t, st = some s ∧ et = some t) (days : List ℕ) :
    (ad = true ∧ days.filterMap (add_event r st et ad) = days.map (alldayEv r)) ∨
    (∃ s t, st = some s ∧ et = some t ∧ ad = false ∧
      days.filterMap (add_event r st et ad) = days.map (timedEv r s t)) := by
  rcases husable with had | ⟨s, t, hs, ht⟩
  · subst had
    left
    refine ⟨rfl, ?_⟩
    rw [show add_event r st et true = fun day => some (alldayEv r day) from rfl]
    exact filterMap_some_comp _ _
  · subst hs
    subst ht
    cases had : ad with
    | true =>
      left
      refine ⟨rfl, ?_⟩
      rw [show add_event r (some s) (some t) true = fun day => some (alldayEv r day) from rfl]
      exact filterMap_some_comp _ _
    | false =>
      right
      refine ⟨s, t, rfl, rfl, rfl, ?_⟩
      rw [show add_event r (some s) (some t) false = fun day => some (timedEv r s t day) from rfl]
      exact filterMap_some_comp _ _

/-! ### Claim C1 -/

/-- C1 (amended): every event `build_events` returns either has
`allDay = true` with a date-only start and no end field, or `allDay = false`
with start and end both date-times built from the same calendar day.  The
original claim's final condition "end strictly greater than start" does not
hold: the code never compares the two clock times (see the counterexample). -/
theorem C1_event_shape {rows : List RawRow} {today lookahead : ℕ} {evs : List Event}
    (h : build_events rows today lookahead = .ok evs) :
    ∀ ev ∈ evs, eventShapeOk ev := by
  obtain ⟨heq, hall⟩ := build_events_ok_decomp h
  intro ev hev
  rw [heq] at hev
  rw [(List.perm_insertionSort evLe _).mem_iff] at hev
  obtain ⟨l, hl, hevl⟩ := List.mem_flatten.1 hev
  obtain ⟨r, hr, rfl⟩ := List.mem_map.1 hl
  obtain ⟨lv, hlv⟩ := hall r hr
  rw [hlv] at hevl
  exact row_events_shape hlv ev hevl

/-- C1 counterexample: the row `"18:15-17:00 Uhr"` on 2026-01-05 produces a
timed event whose end (17:00) sorts strictly before its start (18:15), so
"end strictly greater than start" fails on the code. -/
theorem C1_counterexample :
    build_events [rowEndBeforeStart] 0 0 = .ok [evEndBeforeStart] ∧
    evEndBeforeStart.allDay = false ∧
    evEndBeforeStart.start = .dateTime (toOrdinal 2026 1 5) (18, 15) ∧
    evEndBeforeStart.ev_end = some (.dateTime (toOrdinal 2026 1 5) (17, 0)) ∧
    startKey (EvStart.dateTime (toOrdinal 2026 1 5) (17, 0)) <
      startKey (EvStart.dateTime (toOrdinal 2026 1 5) (18, 15)) :=
  ⟨rfl, rfl, rfl, rfl, by decide⟩

/-- C1 witness: a concrete all-day run satisfying the amended invariant. -/
theorem C1_witness :
    build_events [rowAllDaySingle] 0 0 = .ok [alldayEv rowAllDaySingle (toOrdinal 2026 1 6)] ∧
    eventShapeOk (alldayEv rowAllDaySingle (toOrdinal 2026 1 6)) := by
  have h : build_events [rowAllDaySingle] 0 0 =
      .ok [alldayEv rowAllDaySingle (toOrdinal 2026 1 6)] := rfl
  exact ⟨h, C1_event_shape h _ (List.mem_singleton_self _)⟩

/-! ### Claim C3 -/

/-- C3: a date-spec string matching none of the Single, Range, or Phase
grammars makes `parse_dateinfo` return the Phase kind, without raising. -/
theorem C3_fallback_phase (s : String)
    (h1 : singleMatch (normalize_space s) = none)
    (h2 : rangeMatch (normalize_space s) = none)
    (h3 : phaseMatch (normalize_space s) = false) :
    parse_dateinfo s = .ok .phase := by
  simp [parse_dateinfo, h1, h2, h3]

/-- C3 witness: a concrete unrecognized date spec falls back to Phase. -/
theorem C3_witness :
    singleMatch (normalize_space "jeden Montag") = none ∧
    rangeMatch (normalize_space "jeden Montag") = none ∧
    phaseMatch (normalize_space "jeden Montag") = false ∧
    parse_dateinfo "jeden Montag" = .ok .phase :=
  ⟨rfl, rfl, rfl, C3_fallback_phase _ rfl rfl rfl⟩

/-! ### Claim C10 -/

/-- C10: a row with a recognized weekday code, a Single date `d` and a usable
time contributes exactly one event dated `d`; no hypothesis relates the
weekday code to `d`'s actual weekday, which is never validated. -/
theorem C10_single_unvalidated {r : RawRow} {today lookahead wd d : ℕ}
    {st et : Option (ℕ × ℕ)} {ad : Bool}
    (hdow : DOW_MAP r.dow = some wd)
    (ht : parse_time_range r.time_str = .ok (st, et, ad))
    (hdi : parse_dateinfo r.dateinfo = .ok (.single d))
    (husable : ad = true ∨ ∃ s t, st = some s ∧ et = some t) :
    ∃ ev, build_events [r] today lookahead = .ok [ev] ∧ startOrd ev = d := by
  have hre := @row_events_eval today lookahead r wd st et ad _ hdow ht hdi
  simp only [] at hre
  rcases filterMap_add_event_usable r st et ad husable [d] with ⟨had, heq⟩ |
    ⟨s, t, hs, htq, had, heq⟩
  · rw [heq] at hre
    refine ⟨alldayEv r d, ?_, startOrd_alldayEv r d⟩
    rw [build_events_singleton, hre]
    simp [List.insertionSort]
  · rw [heq] at hre
    refine ⟨timedEv r s t d, ?_, startOrd_timedEv r s t d⟩
    rw [build_events_singleton, hre]
    simp [List.insertionSort]

/-! ### Claim C4 -/

/-- C4: `daterange_weekly` returns exactly the dates of the given weekday
between start and end inclusive, in ascending order spaced exactly 7 days,
and its first element is the first on-or-after occurrence of the weekday. -/
theorem C4_daterange_weekly (start e wd : ℕ) (hwd : wd < 7) :
    (∀ x, x ∈ daterange_weekly start e wd ↔
      start ≤ x ∧ x ≤ e ∧ pyWeekday x = wd) ∧
    List.Chain' (fun a b => b = a + 7) (daterange_weekly start e wd) ∧
    (daterange_weekly start e wd).head? =
      (if next_date_for_weekday start wd ≤ e then some (next_date_for_weekday start wd)
       else none) := by
  obtain ⟨hge, hlt, hwk⟩ := next_date_spec start wd hwd
  simp only [daterange_weekly]
  rw [if_neg (by omega : ¬ next_date_for_weekday start wd < start)]
  refine ⟨?_, weeklyUpTo_chain _ _, ?_⟩
  · intro x
    rw [mem_weeklyUpTo]
    unfold pyWeekday at hwk ⊢
    omega
  · rw [weeklyUpTo_eq]
    by_cases hle : next_date_for_weekday start wd ≤ e
    · rw [if_pos hle, if_pos hle]
      rfl
    · rw [if_neg hle, if_neg hle]
      rfl

/-- C4 witness: the Wednesday range 2026-02-18 .. 2026-05-27 at weekday
index 2, instantiated at the member 2026-02-25 and at the head. -/
theorem C4_witness :
    (2 : ℕ) < 7 ∧
    (toOrdinal 2026 2 25 ∈ daterange_weekly (toOrdinal 2026 2 18) (toOrdinal 2026 5 27) 2 ↔
      toOrdinal 2026 2 18 ≤ toOrdinal 2026 2 25 ∧
      toOrdinal 2026 2 25 ≤ toOrdinal 2026 5 27 ∧
      pyWeekday (toOrdinal 2026 2 25) = 2) ∧
    (daterange_weekly (toOrdinal 2026 2 18) (toOrdinal 2026 5 27) 2).head? =
      some (toOrdinal 2026 2 18) := by
  refine ⟨by decide, (C4_daterange_weekly _ _ 2 (by decide)).1 _, ?_⟩
  have h := (C4_daterange_weekly (toOrdinal 2026 2 18) (toOrdinal 2026 5 27) 2 (by decide)).2.2
  rw [h]
  decide

/-! ### Claim C5 -/

/-- C5: a Phase row with recognized weekday and usable time produces one
event per week on that weekday, from the first such weekday on or after
`today` through the lookahead horizon inclusive. -/
theorem C5_phase_expansion {r : RawRow} {today lookahead wd : ℕ}
    {st et : Option (ℕ × ℕ)} {ad : Bool}
    (hdow : DOW_MAP r.dow = some wd)
    (ht : parse_time_range r.time_str = .ok (st, et, ad))
    (hdi : parse_dateinfo r.dateinfo = .ok .phase)
    (husable : ad = true ∨ ∃ s t, st = some s ∧ et = some t) :
    ∃ evs, build_events [r] today lookahead = .ok evs ∧
      evs.map startOrd = weeklyUpTo (next_date_for_weekday today wd) (today + lookahead) ∧
      ∀ x, (x ∈ evs.map startOrd ↔
        today ≤ x ∧ x ≤ today + lookahead ∧ pyWeekday x = wd) := by
  have hwd7 := DOW_MAP_lt hdow
  have hre := @row_events_eval today lookahead r wd st et ad _ hdow ht hdi
  simp only [] at hre
  have hdaysmem : ∀ x,
      x ∈ weeklyUpTo (next_date_for_weekday today wd) (today + lookahead) ↔
        today ≤ x ∧ x ≤ today + lookahead ∧ pyWeekday x = wd := by
    intro x
    obtain ⟨hge, hlt, hwk⟩ := next_date_spec today wd hwd7
    rw [mem_weeklyUpTo]
    unfold pyWeekday at hwk ⊢
    omega
  have hpl := weeklyUpTo_pairwise_lt (next_date_for_weekday today wd) (today + lookahead)
  rcases filterMap_add_event_usable r st et ad husable
      (weeklyUpTo (next_date_for_weekday today wd) (today + lookahead)) with
    ⟨had, heq⟩ | ⟨s, t, hs, htq, had, heq⟩
  · rw [heq] at hre
    have hcomp : startOrd ∘ alldayEv r = id := funext fun d => rfl
    refine ⟨(weeklyUpTo (next_date_for_weekday today wd) (today + lookahead)).map
      (alldayEv r), ?_, ?_, ?_⟩
    · rw [build_events_singleton, hre]
      simp only []
      congr 1
      exact List.Sorted.insertionSort_eq
        (List.Pairwise.map _ (fun a b hab => evLe_alldayEv hab) hpl)
    · rw [List.map_map, hcomp, List.map_id]
    · intro x
      rw [List.map_map, hcomp, List.map_id]
      exact hdaysmem x
  · rw [heq] at hre
    have hcomp : startOrd ∘ timedEv r s t = id := funext fun d => rfl
    refine ⟨(weeklyUpTo (next_date_for_weekday today wd) (today + lookahead)).map
      (timedEv r s t), ?_, ?_, ?_⟩
    · rw [build_events_singleton, hre]
      simp only []
      congr 1
      exact List.Sorted.insertionSort_eq
        (List.Pairwise.map _ (fun a b hab => evLe_timedEv hab) hpl)
    · rw [List.map_map, hcomp, List.map_id]
    · intro x
      rw [List.map_map, hcomp, List.map_id]
      exact hdaysmem x

/-- C5 witness: lookahead 28, today = 2026-01-05 (a Monday), weekday Mo:
exactly the five Mondays 2026-01-05 .. 2026-02-02. -/
theorem C5_witness :
    ∃ evs, build_events [rowPhaseMo] (toOrdinal 2026 1 5) 28 = .ok evs ∧
      evs.map startOrd = [toOrdinal 2026 1 5, toOrdinal 2026 1 12, toOrdinal 2026 1 19,
        toOrdinal 2026 1 26, toOrdinal 2026 2 2] := by
  obtain ⟨evs, h1, h2, _⟩ := @C5_phase_expansion rowPhaseMo (toOrdinal 2026 1 5) 28 0
    (some (18, 15)) (some (19, 45)) false rfl rfl rfl (Or.inr ⟨_, _, rfl, rfl⟩)
  refine ⟨evs, h1, ?_⟩
  rw [h2]
  decide

/-! ### Claim C8 -/

theorem filterMap_add_event_none (r : RawRow) (ds : List ℕ) :
    ds.filterMap (add_event r none none false) = [] := by
  induction ds with
  | nil => rfl
  | cons d ds ih => simp [List.filterMap_cons, add_event, ih]

/-- Dropping a row that contributes `[]` does not change the flattened
event payload of `collectResults`. -/
theorem collectResults_middle_nil {α : Type} (xs ys : List (Except String (List α))) :
    (collectResults (xs ++ .ok [] :: ys)).map List.flatten =
      (collectResults (xs ++ ys)).map List.flatten := by
  induction xs with
  | nil =>
    simp only [List.nil_append, collectResults]
    cases collectResults ys with
    | error e => rfl
    | ok vs => simp [Except.map]
  | cons x xs ih =>
    cases x with
    | error e => simp [collectResults]
    | ok v =>
      simp only [List.cons_append, collectResults]
      cases h1 : collectResults (xs ++ .ok [] :: ys) with
      | error e =>
        cases h2 : collectResults (xs ++ ys) with
        | error e2 =>
          rw [h1, h2] at ih
          simp only [Except.map] at ih
          simp only [Except.error.injEq] at ih
          subst ih
          rfl
        | ok vs2 =>
          rw [h1, h2] at ih
          simp [Except.map] at ih
      | ok vs1 =>
        cases h2 : collectResults (xs ++ ys) with
        | error e2 =>
          rw [h1, h2] at ih
          simp [Except.map] at ih
        | ok vs2 =>
          rw [h1, h2] at ih
          simp only [Except.map, Except.ok.injEq] at ih
          simp [Except.map, ih]

/-- A row contributing no events can be removed from the input without
changing the output. -/
theorem build_events_skip_row {today lookahead : ℕ} {r : RawRow}
    (h : row_events today lookahead r = .ok [])
    (pre post : List RawRow) :
    build_events (pre ++ r :: post) today lookahead =
      build_events (pre ++ post) today lookahead := by
  unfold build_events
  rw [List.map_append, List.map_cons, h, List.map_append]
  have key := collectResults_middle_nil (α := Event)
    (pre.map (row_events today lookahead)) (post.map (row_events today lookahead))
  cases h1 : collectResults
      (pre.map (row_events today lookahead) ++ .ok [] :: post.map (row_events today lookahead)) with
  | error e =>
    cases h2 : collectResults
        (pre.map (row_events today lookahead) ++ post.map (row_events today lookahead)) with
    | error e2 =>
      rw [h1, h2] at key
      simp only [Except.map, Except.error.injEq] at key
      rw [key]
    | ok vs2 =>
      rw [h1, h2] at key
      simp [Except.map] at key
  | ok vs1 =>
    cases h2 : collectResults
        (pre.map (row_events today lookahead) ++ post.map (row_events today lookahead)) with
    | error e2 =>
      rw [h1, h2] at key
      simp [Except.map] at key
    | ok vs2 =>
      rw [h1, h2] at key
      simp only [Except.map, Except.ok.injEq] at key
      simp only [Except.ok.injEq]
      rw [key]

/-- C8 (amended): a row with an unrecognized weekday code contributes no
events and never raises (the weekday is checked before any parsing); a row
whose time parse yields no times and no all-day flag contributes no events
provided its date text also parses without raising — and in either case the
skipped row can be removed without affecting the other rows' events.  The
unconditional "does not raise" of the original claim fails: such a row's
date (or time) text can still raise `ValueError` (see the counterexample). -/
theorem C8_silent_skip :
    (∀ (today lookahead : ℕ) (r : RawRow), DOW_MAP r.dow = none →
      row_events today lookahead r = .ok []) ∧
    (∀ (today lookahead : ℕ) (r : RawRow) (di : DateInfo),
      parse_time_range r.time_str = .ok (none, none, false) →
      parse_dateinfo r.dateinfo = .ok di →
      row_events today lookahead r = .ok []) ∧
    (∀ (today lookahead : ℕ) (r : RawRow) (pre post : List RawRow),
      row_events today lookahead r = .ok [] →
      build_events (pre ++ r :: post) today lookahead =
        build_events (pre ++ post) today lookahead) := by
  refine ⟨?_, ?_, ?_⟩
  · intro today la r h
    unfold row_events
    rw [h]
  · intro today la r di ht hdi
    cases hdow : DOW_MAP r.dow with
    | none =>
      unfold row_events
      rw [hdow]
    | some wd =>
      rw [row_events_eval hdow ht hdi]
      rw [filterMap_add_event_none]
  · intro today la r pre post h
    exact build_events_skip_row h pre post

/-- C8 counterexample: a row with unrecognized, non-all-day time text and the
impossible date `"31.02.2026"` makes the whole run raise `ValueError`
instead of being skipped. -/
theorem C8_counterexample :
    parse_time_range rowBadDate.time_str = .ok (none, none, false) ∧
    build_events [rowBadDate] 0 0 = .error "ValueError: day is out of range for month" :=
  ⟨rfl, rfl⟩

/-- C8 witness: the weekday code `"XX"` is skipped silently and removing the
row leaves the other rows' events unchanged. -/
theorem C8_witness :
    DOW_MAP rowBadDow.dow = none ∧
    row_events 0 0 rowBadDow = .ok [] ∧
    build_events ([] ++ rowBadDow :: [rowAllDaySingle]) 0 0 =
      build_events ([] ++ [rowAllDaySingle]) 0 0 := by
  have h1 : DOW_MAP rowBadDow.dow = none := rfl
  have h2 := C8_silent_skip.1 0 0 rowBadDow h1
  exact ⟨h1, h2, C8_silent_skip.2.2 0 0 rowBadDow [] [rowAllDaySingle] h2⟩

/-! ### Claim C9 -/

/-- C9 (amended): a successful `build_events` output is sorted ascending by
the key (start value, title) — the numeric `startKey` order coincides with
comparing the ISO start strings — and reordering the input rows permutes the
output at most; when no two events share the same (start, title) key the
output is identical under reordering.  Full equality for arbitrary inputs
fails: the stable sort keeps equal-key events in input order (see the
counterexample). -/
theorem C9_sorted_deterministic {rows rows2 : List RawRow} {today lookahead : ℕ}
    {evs evs2 : List Event}
    (h1 : build_events rows today lookahead = .ok evs)
    (hp : rows.Perm rows2)
    (h2 : build_events rows2 today lookahead = .ok evs2) :
    List.Sorted evLe evs ∧ evs.Perm evs2 ∧
      ((evs.map fun ev => (startKey ev.start, ev.title)).Nodup → evs = evs2) := by
  obtain ⟨he1, _⟩ := build_events_ok_decomp h1
  obtain ⟨he2, _⟩ := build_events_ok_decomp h2
  have hsort1 : List.Sorted evLe evs := by
    rw [he1]
    exact List.sorted_insertionSort evLe _
  have hsort2 : List.Sorted evLe evs2 := by
    rw [he2]
    exact List.sorted_insertionSort evLe _
  have hpermE : evs.Perm evs2 := by
    rw [he1, he2, ← List.flatMap_def, ← List.flatMap_def]
    exact ((List.perm_insertionSort evLe _).trans (hp.flatMap_right _)).trans
      (List.perm_insertionSort evLe _).symm
  refine ⟨hsort1, hpermE, ?_⟩
  intro hnd
  refine List.Perm.eq_of_sorted ?_ hsort1 hsort2 hpermE
  intro a b ha hb hab hba
  obtain ⟨hk, htl⟩ := evLe_antisymm_key hab hba
  have hb1 : b ∈ evs := hpermE.symm.subset hb
  exact List.inj_on_of_nodup_map hnd ha hb1 (by rw [hk, htl])

/-- C9 counterexample: two rows identical except for their location yield
events with equal (start, title) keys; the stable sort keeps input order, so
reversing the rows changes the output sequence. -/
theorem C9_counterexample :
    build_events [rowTwinA, rowTwinB] 0 0 ≠ build_events [rowTwinB, rowTwinA] 0 0 := by
  intro h
  have h1 : build_events [rowTwinA, rowTwinB] 0 0 =
      .ok [timedEv rowTwinA (18, 15) (19, 45) (toOrdinal 2026 1 5),
        timedEv rowTwinB (18, 15) (19, 45) (toOrdinal 2026 1 5)] := rfl
  have h2 : build_events [rowTwinB, rowTwinA] 0 0 =
      .ok [timedEv rowTwinB (18, 15) (19, 45) (toOrdinal 2026 1 5),
        timedEv rowTwinA (18, 15) (19, 45) (toOrdinal 2026 1 5)] := rfl
  rw [h1, h2] at h
  simp only [Except.ok.injEq, List.cons.injEq] at h
  exact absurd (congrArg (fun ev => ev.extendedProps.location) h.1) (by decide)

/-- C9 witness: two rows with distinct keys produce the same sorted output
in either input order. -/
theorem C9_witness :
    ∃ evs evs2, build_events [rowTwinA, rowAllDaySingle] 0 0 = .ok evs ∧
      build_events [rowAllDaySingle, rowTwinA] 0 0 = .ok evs2 ∧
      List.Sorted evLe evs ∧ evs.Perm evs2 ∧ evs = evs2 := by
  have h1 : build_events [rowTwinA, rowAllDaySingle] 0 0 =
      .ok [timedEv rowTwinA (18, 15) (19, 45) (toOrdinal 2026 1 5),
        alldayEv rowAllDaySingle (toOrdinal 2026 1 6)] := rfl
  have h2 : build_events [rowAllDaySingle, rowTwinA] 0 0 =
      .ok [timedEv rowTwinA (18, 15) (19, 45) (toOrdinal 2026 1 5),
        alldayEv rowAllDaySingle (toOrdinal 2026 1 6)] := rfl
  obtain ⟨hs, hperm, heq⟩ := C9_sorted_deterministic h1 (List.Perm.swap _ _ _) h2
  exact ⟨_, _, h1, h2, hs, hperm, heq (by decide)⟩

/-! ### Claim C2 -/

/-- C2 (amended): an input matching neither the timed pattern nor the all-day
pattern makes `parse_time_range` return absent times with the all-day flag
false, without raising; but an input whose text matches the timed pattern
with an out-of-range hour or minute raises `ValueError` (see the
counterexample), so the original "never raises" claim holds only for inputs
that do not match the pattern at all. -/
theorem C2_unrecognized_time :
    (∀ s : String, timeMatch (normalize_space s) = none →
      alldayMatch (normalize_space s) = false →
      parse_time_range s = .ok (none, none, false)) ∧
    (∀ (s : String) (sh sm eh em : ℕ),
      timeMatch (normalize_space s) = some (sh, sm, eh, em) →
      (23 < sh ∨ 59 < sm ∨ 23 < eh ∨ 59 < em) →
      ∃ msg, parse_time_range s = .error msg) := by
  constructor
  · intro s h1 h2
    simp [parse_time_range, h1, h2]
  · intro s sh sm eh em hm hbad
    have hna := timeMatch_not_allday hm
    simp only [parse_time_range, hna, Bool.false_eq_true, if_false, hm]
    unfold mkTime
    by_cases hc1 : 23 < sh
    · rw [if_pos hc1]
      exact ⟨_, rfl⟩
    · rw [if_neg hc1]
      by_cases hc2 : 59 < sm
      · rw [if_pos hc2]
        exact ⟨_, rfl⟩
      · rw [if_neg hc2]
        simp only []
        by_cases hc3 : 23 < eh
        · rw [if_pos hc3]
          exact ⟨_, rfl⟩
        · rw [if_neg hc3]
          by_cases hc4 : 59 < em
          · rw [if_pos hc4]
            exact ⟨_, rfl⟩
          · omega

/-- C2 counterexample: `"25:00-26:00 Uhr"` is neither recognized form (hour
beyond 23), yet `parse_time_range` raises `ValueError` instead of returning
the defined no-op triple. -/
theorem C2_counterexample :
    timeMatch (normalize_space "25:00-26:00 Uhr") = some (25, 0, 26, 0) ∧
    alldayMatch (normalize_space "25:00-26:00 Uhr") = false ∧
    parse_time_range "25:00-26:00 Uhr" = .error "ValueError: hour must be in 0..23" :=
  ⟨rfl, rfl, rfl⟩

/-- C2 witness: a concrete unrecognized time text is a defined no-op. -/
theorem C2_witness :
    timeMatch (normalize_space "siehe Aushang") = none ∧
    alldayMatch (normalize_space "siehe Aushang") = false ∧
    parse_time_range "siehe Aushang" = .ok (none, none, false) :=
  ⟨rfl, rfl, C2_unrecognized_time.1 _ rfl rfl⟩

/-! ### Claim C6 -/

/-- C6: a `DD.MM.-DD.MM.YYYY` date spec yields a Range whose start date is
built from the end date's year (`toOrdinal ey sm sd`): start and end share
the year `ey` captured after the dash. -/
theorem C6_range_inherits_year (s : String) (sd sm ed em ey : ℕ)
    (h : rangeMatch (normalize_space s) = some (sd, sm, ed, em, ey))
    (hy1 : 1 ≤ ey) (hy2 : ey ≤ 9999)
    (hem : 1 ≤ em ∧ em ≤ 12) (hed : 1 ≤ ed ∧ ed ≤ daysInMonth ey em)
    (hsm : 1 ≤ sm ∧ sm ≤ 12) (hsd : 1 ≤ sd ∧ sd ≤ daysInMonth ey sm) :
    parse_dateinfo s = .ok (.range (toOrdinal ey sm sd) (toOrdinal ey em ed)) := by
  have hs := rangeMatch_single_none h
  have hmkEnd : mkDate ey em ed = .ok (toOrdinal ey em ed) := by
    unfold mkDate
    rw [if_neg (by omega), if_neg (by omega), if_neg (by omega)]
  have hmkStart : mkDate ey sm sd = .ok (toOrdinal ey sm sd) := by
    unfold mkDate
    rw [if_neg (by omega), if_neg (by omega), if_neg (by omega)]
  simp [parse_dateinfo, hs, h, hmkEnd, hmkStart]

/-- C6 witness: `"18.02.-27.05.2026"` parses to the range 2026-02-18 ..
2026-05-27, the start year inherited from the end. -/
theorem C6_witness :
    rangeMatch (normalize_space "18.02.-27.05.2026") = some (18, 2, 27, 5, 2026) ∧
    parse_dateinfo "18.02.-27.05.2026" =
      .ok (.range (toOrdinal 2026 2 18) (toOrdinal 2026 5 27)) :=
  ⟨rfl, C6_range_inherits_year _ 18 2 27 5 2026 rfl (by decide) (by decide)
    (by decide) (by decide) (by decide) (by decide)⟩

/-! ### Claim C7 -/

/-- C7: a `"<H:MM>-<H:MM> Uhr"` input with in-range fields yields the two
clock times with all-day false; a `"ganzer Tag"` input (case-insensitive)
yields absent times with all-day true. -/
theorem C7_recognized_time :
    (∀ (s : String) (sh sm eh em : ℕ),
      timeMatch (normalize_space s) = some (sh, sm, eh, em) →
      sh ≤ 23 → sm ≤ 59 → eh ≤ 23 → em ≤ 59 →
      parse_time_range s = .ok (some (sh, sm), some (eh, em), false)) ∧
    (∀ s : String, alldayMatch (normalize_space s) = true →
      parse_time_range s = .ok (none, none, true)) := by
  constructor
  · intro s sh sm eh em hm h1 h2 h3 h4
    have hna := timeMatch_not_allday hm
    simp only [parse_time_range, hna, Bool.false_eq_true, if_false, hm]
    unfold mkTime
    rw [if_neg (by omega : ¬ 23 < sh), if_neg (by omega : ¬ 59 < sm)]
    simp only []
    rw [if_neg (by omega : ¬ 23 < eh), if_neg (by omega : ¬ 59 < em)]
  · intro s h
    simp [parse_time_range, h]

/-- C7 witness: `"18:15-19:45 Uhr"` gives 18:15 and 19:45 with allDay false;
`"ganzer Tag"` gives the all-day flag with no clock times. -/
theorem C7_witness :
    timeMatch (normalize_space "18:15-19:45 Uhr") = some (18, 15, 19, 45) ∧
    parse_time_range "18:15-19:45 Uhr" = .ok (some (18, 15), some (19, 45), false) ∧
    alldayMatch (normalize_space "ganzer Tag") = true ∧
    parse_time_range "ganzer Tag" = .ok (none, none, true) :=
  ⟨rfl, C7_recognized_time.1 _ 18 15 19 45 rfl (by decide) (by decide) (by decide) (by decide),
    rfl, C7_recognized_time.2 _ rfl⟩

/-- C10 witness: weekday code Mo with the Tuesday date 2026-01-06 still
produces exactly one event on that Tuesday. -/
theorem C10_witness :
    pyWeekday (toOrdinal 2026 1 6) ≠ 0 ∧ DOW_MAP rowWrongDow.dow = some 0 ∧
    ∃ ev, build_events [rowWrongDow] 0 0 = .ok [ev] ∧ startOrd ev = toOrdinal 2026 1 6 :=
  ⟨by decide, rfl,
    C10_single_unvalidated rfl rfl rfl (Or.inr ⟨(18, 15), (19, 45), rfl, rfl⟩)⟩

end Unisport
